import Mathlib

/-!
# Verification of the retrieval-and-selection pipeline

Shallow embedding of the core of a RAG (retrieval-augmented-generation)
backend: the text chunker (`backend/ingestion/chunker.py`), the retrieval
service (`backend/services/retrieval_service.py`), the selection handler
(`backend/services/selection_handler.py`), the response generator's
confidence heuristic (`backend/services/response_generator.py`), the query
models (`backend/models/query.py`) and the orchestration method
(`backend/services/rag_service.py`).

Python strings are modelled as `String` (manipulated through their
character lists), Python floats as `ℚ`, Python sets of words as
`Finset String`, dictionaries with optional keys as structures with
`Option` fields, and the remote embedding / vector-search / completion
capabilities as function parameters.
-/

namespace RAGSpec

/-! ## String primitives

`wsplit` models Python `str.split()` (split on whitespace runs, dropping
empty tokens); `pyWords` applies it to a string; `lowerStr` models
`str.lower()`; `joinWords` models `" ".join(words)`; `pyStripL` models
`str.strip()` on a character list. -/

/-- Helper for `wsplit`: scan characters, accumulating the current word
in reverse in `acc`; a whitespace character (or the end of the input)
closes the pending word, if any. -/
def wsplitAux : List Char → List Char → List (List Char)
  | [], acc => if acc = [] then [] else [acc.reverse]
  | c :: cs, acc =>
    if c.isWhitespace then
      if acc = [] then wsplitAux cs [] else acc.reverse :: wsplitAux cs []
    else wsplitAux cs (c :: acc)

/-- Python `str.split()` on a character list: maximal non-whitespace runs. -/
def wsplit (l : List Char) : List (List Char) :=
  wsplitAux l []

/-- Python `text.split()` as a list of `String` words. -/
def pyWords (s : String) : List String :=
  (wsplit s.data).map String.mk

/-- Python `str.lower()` (ASCII-faithful). -/
def lowerStr (s : String) : String :=
  String.mk (s.data.map Char.toLower)

/-- Python `" ".join(words)`. -/
def joinWords (ws : List String) : String :=
  String.mk ((ws.map String.data).intersperse [' ']).flatten

/-- Python `str.strip()` on a character list. -/
def pyStripL (l : List Char) : List Char :=
  ((l.dropWhile Char.isWhitespace).reverse.dropWhile Char.isWhitespace).reverse

/-- Python truthiness test `not text.strip()`: the text is blank. -/
def isBlank (s : String) : Bool :=
  s.data.all Char.isWhitespace

/-! ## Chunker (`backend/ingestion/chunker.py`)

The `while` loop of `TextChunker.chunk_text` is embedded with explicit
fuel (`chunkLoop`); `chunkWindows` runs it with fuel `n + 1`, which is
shown below to be enough whenever `overlap_size < chunk_size` (the loop
advances the start index by `chunk_size - overlap_size` per iteration,
so it otherwise need not terminate, which claim C10 records). Windows are
pairs `(start_idx, end_idx)` of word indices, before boundary trimming. -/

/-- One fuel-indexed unfolding of the `chunk_text` sliding-window loop:
emit the window `(start, min (start + cs) n)`; stop if it reaches the end,
otherwise restart from `end - ov`. -/
def chunkLoop (cs ov n : ℕ) : ℕ → ℕ → List (ℕ × ℕ)
  | 0, _ => []
  | fuel + 1, start =>
    if start < n then
      (start, min (start + cs) n) ::
        (if n ≤ min (start + cs) n then []
         else chunkLoop cs ov n fuel (min (start + cs) n - ov))
    else []

/-- The pre-trim windows produced by `chunk_text` on `n` words. -/
def chunkWindows (cs ov n : ℕ) : List (ℕ × ℕ) :=
  chunkLoop cs ov n (n + 1) 0

/-- Index of the first `"\n\n"` occurrence, as found by `re.search(r"\n\n", text)`. -/
def firstPara : List Char → Option ℕ
  | [] => none
  | [_] => none
  | a :: b :: rest =>
    if a = '\n' ∧ b = '\n' then some 0
    else (firstPara (b :: rest)).map (· + 1)

/-- End positions of the matches of `re.finditer(r"[.!?]\s+", text)`:
a sentence-ending punctuation character followed by a maximal (greedy)
whitespace run. `finditer` resumes scanning after each match; since a
whitespace run contains no punctuation character, no match can begin
inside another match's span, so the non-overlapping left-to-right matches
are exactly the positions where a punctuation character is followed by a
whitespace character, and a character-by-character scan is equivalent.
The first argument is the absolute index of the head of the list. -/
def sentEnds (i : ℕ) : List Char → List ℕ
  | [] => []
  | c :: rest =>
    if (c = '.' ∨ c = '!' ∨ c = '?') ∧ (rest.headD 'x').isWhitespace then
      (i + 1 + (rest.takeWhile Char.isWhitespace).length) :: sentEnds (i + 1) rest
    else sentEnds (i + 1) rest

/-- `TextChunker._adjust_to_boundary` on a character list: trim at the
first paragraph break if it lies in the back half; otherwise at the last
sentence match whose end lies in the back half (the Python code walks the
matches in reverse and returns at the first qualifying one); otherwise
return the text unchanged. -/
def adjustL (l : List Char) : List Char :=
  match firstPara l with
  | some i =>
    if 2 * i > l.length then l.take i
    else
      match (sentEnds 0 l).reverse.find? (fun e => decide (2 * e > l.length)) with
      | some e => pyStripL (l.take e)
      | none => l
  | none =>
    match (sentEnds 0 l).reverse.find? (fun e => decide (2 * e > l.length)) with
    | some e => pyStripL (l.take e)
    | none => l

/-- `TextChunker._adjust_to_boundary` on strings. -/
def adjustToBoundary (s : String) : String :=
  String.mk (adjustL s.data)

/-- Configuration of `TextChunker.__init__`. -/
structure ChunkerCfg where
  chunk_size : ℕ := 500
  overlap_size : ℕ := 100
  respect_boundaries : Bool := true
deriving DecidableEq

/-- `TextChunker.chunk_text`: blank text gives no chunks; short text is a
single chunk equal to the whole input; otherwise the sliding-window loop
emits one (possibly boundary-trimmed) chunk per window. -/
def chunk_text (cfg : ChunkerCfg) (text : String) : List String :=
  if isBlank text then []
  else
    let words := pyWords text
    if words.length ≤ cfg.chunk_size then [text]
    else
      (chunkWindows cfg.chunk_size cfg.overlap_size words.length).map (fun w =>
        let ct := joinWords ((words.drop w.1).take (w.2 - w.1))
        if cfg.respect_boundaries ∧ w.2 < words.length then adjustToBoundary ct else ct)

/-! ## Vector-store results and the retrieval service
(`backend/services/retrieval_service.py`)

A search result is a dict with a similarity `score` and a `payload` whose
keys may be missing (`payload.get(key, default)`), modelled as `Option`
fields. The remote embedder and vector search are function parameters:
`embed : String → List ℚ` and
`search : (query_vector) → (limit) → (score_threshold) → results`. -/

/-- Payload of an indexed point / retrieved result; every field optional,
mirroring `payload.get(...)` dictionary access. -/
structure Payload where
  chapter_id : Option String := none
  chapter_title : Option String := none
  module_id : Option String := none
  section_type : Option String := none
  file_path : Option String := none
  chunk_text : Option String := none
deriving DecidableEq

/-- A retrieved search result: similarity score plus payload. -/
structure RChunk where
  score : ℚ
  payload : Payload
deriving DecidableEq

/-- `len(set(a.lower().split()) & set(b.lower().split()))`: the number of
distinct lowercase words shared by two texts. -/
def sharedWordCount (a b : String) : ℕ :=
  ((pyWords (lowerStr a)).toFinset ∩ (pyWords (lowerStr b)).toFinset).card

/-- `RetrievalService.retrieve_relevant_chunks`: embed the query and
search with the given limit and score threshold. -/
def retrieve_relevant_chunks (embed : String → List ℚ)
    (search : List ℚ → ℕ → ℚ → List RChunk)
    (query_text : String) (max_results : ℕ) (score_threshold : ℚ) : List RChunk :=
  search (embed query_text) max_results score_threshold

/-- `RetrievalService.retrieve_for_selected_text`: embed the selected text
and the query independently, average them element-wise, search with
threshold `0.6` and the given limit, keep the results sharing more than 3
distinct lowercase words with the selection, truncate to `max_results`. -/
def retrieve_for_selected_text (embed : String → List ℚ)
    (search : List ℚ → ℕ → ℚ → List RChunk)
    (query_text selected_text : String) (max_results : ℕ) : List RChunk :=
  let selected_embedding := embed selected_text
  let query_embedding := embed query_text
  let combined_embedding :=
    List.zipWith (fun q s => (q + s) / 2) query_embedding selected_embedding
  let results := search combined_embedding max_results (3/5)
  let filtered_results := results.filter
    (fun r => 3 < sharedWordCount selected_text (r.payload.chunk_text.getD ""))
  filtered_results.take max_results

/-! ## Selection handler (`backend/services/selection_handler.py`) -/

/-- The stop-word set of `SelectionHandler._extract_keywords`. -/
def stopWords : List String :=
  ["the", "a", "an", "and", "or", "but", "in", "on", "at", "to", "for",
   "of", "with", "by", "from", "as", "is", "was", "are", "were", "been",
   "be", "have", "has", "had", "do", "does", "did", "will", "would",
   "could", "should", "may", "might", "can", "this", "that", "these",
   "those", "i", "you", "he", "she", "it", "we", "they", "what", "which",
   "who", "when", "where", "why", "how"]

/-- `SelectionHandler._extract_keywords`: lowercase whitespace tokens,
minus stop words and words of length ≤ 2, as a set. -/
def extractKeywords (text : String) : Finset String :=
  (pyWords (lowerStr text)).toFinset.filter
    (fun w => w ∉ stopWords ∧ 2 < w.length)

/-- `SelectionHandler._calculate_overlap_score`: Jaccard similarity of the
chunk's lowercase token set against the selection's keyword set; `0.0`
when the keyword set or the union is empty. -/
def overlapScore (chunk_text : String) (selected_keywords : Finset String) : ℚ :=
  if selected_keywords = ∅ then 0
  else
    let chunk_words := (pyWords (lowerStr chunk_text)).toFinset
    let inter := (chunk_words ∩ selected_keywords).card
    let uni := (chunk_words ∪ selected_keywords).card
    if uni = 0 then 0 else (inter : ℚ) / (uni : ℚ)

/-- A chunk dict after scoring (`{**chunk, "combined_score": …,
"text_overlap": …}`). -/
structure SChunk where
  chunk : RChunk
  combined : ℚ
  overlap : ℚ
deriving DecidableEq

/-- A chunk dict as returned by `filter_chunks_by_selection`: the two
scoring keys are present only on the main path, absent (`none`) when the
guard path returns the input dicts unchanged. -/
structure ScoredChunk where
  chunk : RChunk
  combined_score : Option ℚ
  text_overlap : Option ℚ
deriving DecidableEq

/-- Scoring step of `filter_chunks_by_selection`: combined score
`vector_score * 0.6 + overlap_score * 0.4`. -/
def scoreChunk (kw : Finset String) (c : RChunk) : SChunk :=
  let ov := overlapScore (c.payload.chunk_text.getD "") kw
  { chunk := c, combined := c.score * (3/5) + ov * (2/5), overlap := ov }

/-- Stable descending insertion: place `x` before the first element whose
combined score is ≤ `x`'s (so after every strictly greater one and before
every equal one, preserving input order among ties). -/
def insertDesc (x : SChunk) : List SChunk → List SChunk
  | [] => [x]
  | y :: ys => if y.combined ≤ x.combined then x :: y :: ys else y :: insertDesc x ys

/-- Stable sort, descending by combined score: the embedding of Python's
stable `list.sort(key=lambda x: x["combined_score"], reverse=True)`
(any stable sort produces the same list). -/
def sortDesc : List SChunk → List SChunk
  | [] => []
  | x :: xs => insertDesc x (sortDesc xs)

/-- `SelectionHandler.filter_chunks_by_selection` with threshold `θ`
(`similarity_threshold`, default `0.3`): empty selection or no candidates
short-circuits to the first `max_results` candidates; otherwise score,
stable-sort descending, keep overlaps ≥ θ, fall back to the top
`max_results` of the sorted list when the filter empties it, truncate. -/
def filter_chunks_by_selection (θ : ℚ) (retrieved_chunks : List RChunk)
    (selected_text : String) (max_results : ℕ) : List ScoredChunk :=
  if selected_text = "" ∨ retrieved_chunks = [] then
    (retrieved_chunks.take max_results).map (fun c => ⟨c, none, none⟩)
  else
    let selected_words := extractKeywords selected_text
    let scored_chunks := retrieved_chunks.map (scoreChunk selected_words)
    let sorted_chunks := sortDesc scored_chunks
    let filtered_chunks := sorted_chunks.filter (fun s => θ ≤ s.overlap)
    let final_chunks :=
      if filtered_chunks = [] ∧ ¬ sorted_chunks = [] then sorted_chunks.take max_results
      else filtered_chunks
    (final_chunks.take max_results).map (fun s => ⟨s.chunk, some s.combined, some s.overlap⟩)

/-! ## Response generator (`backend/services/response_generator.py`)

The remote chat-completion call is a function parameter
`complete : (system prompt) → (user message) → response text`; the model
name, temperature and token caps are remote-call attributes with no
observable effect on the data flow modelled here. -/

/-- Python `sub in s` substring test. -/
def containsStr (s sub : String) : Bool :=
  decide (sub.data <:+: s.data)

/-- The fixed uncertainty-phrase list of `_estimate_confidence`. -/
def uncertaintyPhrases : List String :=
  ["I don\x27t have enough information", "I\x27m not sure", "unclear", "cannot answer"]

/-- `ResponseGenerator._estimate_confidence`: base 0.5, +0.2 for a
citation marker, −0.3 for an uncertainty phrase (case-insensitive match),
+0.1 for a non-empty context longer than 500 characters, clamped
to [0, 1]. -/
def estimateConfidence (response context : String) : ℚ :=
  let confidence : ℚ := 1/2
  let confidence :=
    if containsStr response "Source" || containsStr response "According to"
    then confidence + 1/5 else confidence
  let confidence :=
    if uncertaintyPhrases.any (fun p => containsStr (lowerStr response) (lowerStr p))
    then confidence - 3/10 else confidence
  let confidence :=
    if ¬ context = "" ∧ 500 < context.length then confidence + 1/10 else confidence
  max 0 (min 1 confidence)

/-- `ResponseGenerator._get_default_system_prompt`. -/
def defaultSystemPrompt : String :=
  "You are an AI assistant helping students learn about Physical AI and Humanoid Robotics.\n\nYour task is to answer questions based STRICTLY on the provided context from the textbook. Follow these rules:\n\n1. ONLY use information from the provided context sources\n2. If the context doesn\x27t contain enough information to answer, say \"I don\x27t have enough information in the textbook to answer this question.\"\n3. DO NOT make up information or use external knowledge\n4. When citing information, reference the source number (e.g., \"According to Source 1...\")\n5. Be clear, concise, and educational\n6. If the user\x27s question is ambiguous, ask for clarification\n7. Format your answers with proper structure (paragraphs, lists when appropriate)\n\nRemember: Accuracy is more important than completeness. It\x27s better to say \"I don\x27t know\" than to hallucinate information."

/-- `ResponseGenerator._build_user_message`. -/
def buildUserMessage (query context : String) : String :=
  if context = "" then
    "Question: " ++ query ++ "\n\nContext: No relevant information found in the textbook.\n\nPlease answer based on the available context."
  else
    "Context from textbook:\n\n" ++ context ++ "\n\n---\n\nQuestion: " ++ query ++ "\n\nPlease answer the question using ONLY the information from the context above. Cite specific sources when possible."

/-- `ResponseGenerator.generate_response` (full-book prompt). -/
def generate_response (complete : String → String → String)
    (query context : String) : String × ℚ :=
  let response_text := complete defaultSystemPrompt (buildUserMessage query context)
  (response_text, estimateConfidence response_text context)

/-- System prompt of `generate_response_with_selected_text`. -/
def selectedSystemPrompt : String :=
  "You are an AI assistant helping students understand specific passages from a Physical AI and Humanoid Robotics textbook.\n\nThe user has highlighted a specific passage and is asking a question about it. Your task is to:\n\n1. Focus your answer on the highlighted passage\n2. Use the additional context ONLY to provide supporting information\n3. Stay within the scope of the highlighted text\n4. Be concise and directly address the question\n5. If the question cannot be answered from the highlighted passage, say so clearly\n\nRemember: The highlighted passage is the primary source."

/-- `ResponseGenerator.generate_response_with_selected_text`. -/
def generate_response_with_selected_text (complete : String → String → String)
    (query context selected_text : String) : String × ℚ :=
  let user_message :=
    "Highlighted passage:\n" ++ selected_text ++
    "\n\n---\n\nAdditional context from textbook:\n" ++ context ++
    "\n\n---\n\nQuestion: " ++ query ++
    "\n\nPlease answer the question focusing primarily on the highlighted passage above."
  let response_text := complete selectedSystemPrompt user_message
  (response_text, estimateConfidence response_text context)

/-! ## Query models (`backend/models/query.py`)

`mkQueryRequest` embeds Pydantic validation of `QueryRequest`: per-field
constraints (string lengths, the mode literal, the `max_results` range),
then the `validate_selected_text` field validator (which Pydantic runs on
provided values). A query object exists only if validation succeeds, so a
rejected query never reaches `process_query` and hence never triggers an
embedding, search or completion call. -/

/-- A validated query request. -/
structure QueryRequest where
  query_text : String
  query_mode : String
  session_id : Option String
  selected_text : Option String
  max_results : ℕ
deriving DecidableEq

/-- `QueryRequest` construction with Pydantic validation:
field constraints in declaration order, then `validate_selected_text`. -/
def mkQueryRequest (query_text query_mode : String)
    (session_id selected_text : Option String) (max_results : ℕ) :
    Except String QueryRequest :=
  if ¬ (1 ≤ query_text.length ∧ query_text.length ≤ 2000) then
    .error "query_text length out of range"
  else if ¬ (query_mode = "full-book" ∨ query_mode = "selected-text") then
    .error "query_mode must be a permitted literal"
  else
    let checkSelected : Except String Unit :=
      match selected_text with
      | none =>
        if query_mode = "selected-text" then
          .error "selected_text is required when query_mode is selected-text"
        else .ok ()
      | some v =>
        if ¬ (20 ≤ v.length ∧ v.length ≤ 2000) then
          .error "selected_text length out of range"
        else if query_mode = "selected-text" ∧ v = "" then
          .error "selected_text is required when query_mode is selected-text"
        else if v ≠ "" ∧ (pyWords v).length < 20 then
          .error "selected_text must contain at least 20 words"
        else if v ≠ "" ∧ 2000 < (pyWords v).length then
          .error "selected_text must not exceed 2000 words"
        else .ok ()
    match checkSelected with
    | .error e => .error e
    | .ok _ =>
      if ¬ (1 ≤ max_results ∧ max_results ≤ 20) then
        .error "max_results out of range"
      else
        .ok ⟨query_text, query_mode, session_id, selected_text, max_results⟩

/-- `SourceCitation` (all fields required after defaulting). -/
structure SourceCitation where
  chapter_id : String
  chapter_title : String
  module_id : String
  section_type : String
  file_path : String
  chunk_text : String
  relevance_score : ℚ
deriving DecidableEq

/-- `QueryResponse`. -/
structure QueryResponse where
  response_text : String
  source_citations : List SourceCitation
  confidence_score : ℚ
  session_id : Option String
  retrieved_chunks : ℕ
deriving DecidableEq

/-! ## RAG orchestrator (`backend/services/rag_service.py`) -/

/-- The remote / numeric-formatting capabilities injected into the
pipeline: embedding, vector search, chat completion, and Python's
`f"{score:.2f}"` float rendering used only inside the context string. -/
structure Capabilities where
  embed : String → List ℚ
  search : List ℚ → ℕ → ℚ → List RChunk
  complete : String → String → String
  fmtScore : ℚ → String

/-- `RetrievalService.format_context_for_llm`: one block per result with
1-based rank, title and section type defaulting to `"Unknown"`, joined by
`"\n---\n"`; empty input gives `""`. -/
def formatContext (fmtScore : ℚ → String) (retrieved_chunks : List ScoredChunk) : String :=
  if retrieved_chunks = [] then ""
  else
    let parts := retrieved_chunks.enum.map (fun p =>
      let payload := p.2.chunk.payload
      "[Source " ++ toString (p.1 + 1) ++ ": " ++
        payload.chapter_title.getD "Unknown" ++ " - " ++
        payload.section_type.getD "Unknown" ++ " (relevance: " ++
        fmtScore p.2.chunk.score ++ ")]\n" ++
        payload.chunk_text.getD "" ++ "\n")
    String.intercalate "\n---\n" parts

/-- `SelectionHandler.enhance_context_with_selection`. -/
def enhanceContext (base_context selected_text : String) : String :=
  "HIGHLIGHTED PASSAGE (User\x27s Focus):\n" ++ selected_text ++
  "\n\n---\n\nRELATED CONTENT FROM TEXTBOOK:\n" ++ base_context

/-- Step 1 of `RAGService.process_query`: in selected-text mode with a
selection present, over-fetch `max_results * 2` candidates with the
blended-embedding strategy and filter them with the selection handler
(threshold 0.3) down to `max_results`; otherwise full-book retrieval at
threshold 0.7. -/
def processRetrieved (cap : Capabilities) (req : QueryRequest) : List ScoredChunk :=
  if req.query_mode = "selected-text" ∧ req.selected_text.getD "" ≠ "" then
    filter_chunks_by_selection (3/10)
      (retrieve_for_selected_text cap.embed cap.search req.query_text
        (req.selected_text.getD "") (req.max_results * 2))
      (req.selected_text.getD "") req.max_results
  else
    (retrieve_relevant_chunks cap.embed cap.search req.query_text
      req.max_results (7/10)).map (fun c => ⟨c, none, none⟩)

/-- `RAGService._extract_source_citations` on one chunk: project the
payload onto a `SourceCitation`, defaulting each missing field. -/
def mkCitation (s : ScoredChunk) : SourceCitation :=
  { chapter_id := s.chunk.payload.chapter_id.getD "unknown"
    chapter_title := s.chunk.payload.chapter_title.getD "Unknown Chapter"
    module_id := s.chunk.payload.module_id.getD "unknown-module"
    section_type := s.chunk.payload.section_type.getD "general"
    file_path := s.chunk.payload.file_path.getD ""
    chunk_text := s.chunk.payload.chunk_text.getD ""
    relevance_score := s.chunk.score }

/-- `RAGService._extract_source_citations`. -/
def extractSourceCitations (retrieved_chunks : List ScoredChunk) : List SourceCitation :=
  retrieved_chunks.map mkCitation

/-- `RAGService.process_query`: retrieve (mode-dependent), format and
possibly enhance the context, generate the answer, attach citations and
the post-filter chunk count. -/
def process_query (cap : Capabilities) (req : QueryRequest) : QueryResponse :=
  let retrieved_chunks := processRetrieved cap req
  let base_context := formatContext cap.fmtScore retrieved_chunks
  let selMode := req.query_mode = "selected-text" ∧ req.selected_text.getD "" ≠ ""
  let context :=
    if selMode then enhanceContext base_context (req.selected_text.getD "")
    else base_context
  let generated :=
    if selMode then
      generate_response_with_selected_text cap.complete req.query_text context
        (req.selected_text.getD "")
    else generate_response cap.complete req.query_text context
  { response_text := generated.1
    source_citations := extractSourceCitations retrieved_chunks
    confidence_score := generated.2
    session_id := req.session_id
    retrieved_chunks := retrieved_chunks.length }

/-! ## Helper lemmas -/

theorem length_dropWhile_le' (p : α → Bool) (l : List α) :
    (l.dropWhile p).length ≤ l.length := by
  induction l with
  | nil => simp [List.dropWhile]
  | cons a l ih =>
    by_cases h : p a
    · simpa [List.dropWhile, h] using Nat.le_succ_of_le ih
    · simp [List.dropWhile, h]

theorem wsplitAux_length (l : List Char) :
    (wsplitAux l []).length ≤ l.length
    ∧ ∀ acc, (wsplitAux l acc).length ≤ l.length + 1 := by
  induction l with
  | nil =>
    refine ⟨by simp [wsplitAux], fun acc => ?_⟩
    by_cases h : acc = [] <;> simp [wsplitAux, h]
  | cons c cs ih =>
    obtain ⟨ih0, ih1⟩ := ih
    have ihc := ih1 [c]
    constructor
    · by_cases hw : c.isWhitespace <;> simp [wsplitAux, hw] <;> omega
    · intro acc
      have iha := ih1 (c :: acc)
      by_cases hw : c.isWhitespace
      · by_cases h : acc = [] <;> simp [wsplitAux, hw, h] <;> omega
      · simp [wsplitAux, hw]
        omega

/-- A text has at most as many words as characters. -/
theorem pyWords_length_le (s : String) : (pyWords s).length ≤ s.length := by
  have h := (wsplitAux_length s.data).1
  have h2 : (pyWords s).length = (wsplitAux s.data []).length := by
    simp [pyWords, wsplit]
  have h3 : s.length = s.data.length := rfl
  omega

/-! ## Claim theorems -/

/-- C9. For every response string and context string, the confidence score
equals the clamp to [0, 1] of: 0.5, plus 0.2 for a source-citation marker
("Source" or "According to") in the response, minus 0.3 for an
uncertainty phrase in the response, plus 0.1 when the context length
exceeds 500 characters; in particular it always lies in [0, 1]. -/
theorem confidence_clamped_formula (response context : String) :
    estimateConfidence response context =
      max 0 (min 1 ((1/2 : ℚ)
        + (if containsStr response "Source" || containsStr response "According to"
           then 1/5 else 0)
        - (if uncertaintyPhrases.any
              (fun p => containsStr (lowerStr response) (lowerStr p))
           then 3/10 else 0)
        + (if ¬ context = "" ∧ 500 < context.length then 1/10 else 0)))
    ∧ 0 ≤ estimateConfidence response context
    ∧ estimateConfidence response context ≤ 1 := by
  refine ⟨?_, ?_, ?_⟩
  · unfold estimateConfidence
    split_ifs <;> norm_num
  · exact le_max_left 0 _
  · unfold estimateConfidence
    exact max_le (by norm_num) (min_le_left 1 _)

/-- C5. Blank input produces no chunks; non-blank input whose word count
is at most `chunk_size` produces exactly one chunk equal to the whole
input text. -/
theorem chunk_text_trivial_cases (cfg : ChunkerCfg) (text : String) :
    (isBlank text = true → chunk_text cfg text = [])
    ∧ (isBlank text = false → (pyWords text).length ≤ cfg.chunk_size →
        chunk_text cfg text = [text]) := by
  constructor
  · intro h
    simp [chunk_text, h]
  · intro h hlen
    simp [chunk_text, h, hlen]

theorem chunk_text_trivial_cases_witness :
    (chunk_text {} "" = [] ∧ chunk_text {} "   " = [])
    ∧ chunk_text {} "hello world" = ["hello world"] :=
  ⟨⟨(chunk_text_trivial_cases {} "").1 (by decide),
    (chunk_text_trivial_cases {} "   ").1 (by decide)⟩,
    (chunk_text_trivial_cases {} "hello world").2 (by decide) (by decide)⟩

/-- C8. A selected-text-mode query whose selected passage has fewer than
20 or more than 2000 words is rejected by `QueryRequest` validation with
a validation error; since `process_query` consumes only a successfully
constructed `QueryRequest`, no embedding, vector-search or completion
call can be reached for such a query. -/
theorem selected_word_count_rejected (query_text : String)
    (session_id : Option String) (s : String) (max_results : ℕ)
    (h : (pyWords s).length < 20 ∨ 2000 < (pyWords s).length) :
    ∃ e, mkQueryRequest query_text "selected-text" session_id (some s) max_results
      = .error e := by
  have key : ∀ x : Except String QueryRequest, x.isOk = false → ∃ e, x = .error e := by
    intro x hx
    cases x with
    | error e => exact ⟨e, rfl⟩
    | ok a => simp [Except.isOk, Except.toBool] at hx
  apply key
  unfold mkQueryRequest
  by_cases h1 : 1 ≤ query_text.length ∧ query_text.length ≤ 2000
  · rw [if_neg (not_not_intro h1), if_neg (not_not_intro (Or.inr rfl))]
    dsimp only
    by_cases h2 : 20 ≤ s.length ∧ s.length ≤ 2000
    · have hs : s ≠ "" := by
        intro hh
        rw [hh] at h2
        simp at h2
      rw [if_neg (not_not_intro h2), if_neg (fun hc => hs hc.2)]
      rcases h with hlt | hgt
      · rw [if_pos ⟨hs, hlt⟩]
        rfl
      · have hle : (pyWords s).length ≤ 2000 := (pyWords_length_le s).trans h2.2
        exact absurd hgt (by omega)
    · rw [if_pos (by simpa using h2)]
      rfl
  · rw [if_pos (by simpa using h1)]
    rfl

theorem selected_word_count_rejected_witness :
    ((pyWords "one two three four five six seven eight nine ten").length < 20
      ∨ 2000 < (pyWords "one two three four five six seven eight nine ten").length)
    ∧ ∃ e, mkQueryRequest "What is ROS 2?" "selected-text" none
        (some "one two three four five six seven eight nine ten") 5 = .error e :=
  ⟨by decide,
   selected_word_count_rejected "What is ROS 2?" none
     "one two three four five six seven eight nine ten" 5 (by decide)⟩

theorem chunkLoop_nil_of_le (cs ov n : ℕ) (g start : ℕ) (h : n ≤ start) :
    chunkLoop cs ov n g start = [] := by
  cases g with
  | zero => rfl
  | succ g => simp [chunkLoop, Nat.not_lt.mpr h]

theorem chunkLoop_stable (cs ov n : ℕ) (hov : ov < cs) :
    ∀ f g start, n < start + f → n < start + g →
      chunkLoop cs ov n f start = chunkLoop cs ov n g start := by
  intro f
  induction f with
  | zero =>
    intro g start h1 h2
    exact (chunkLoop_nil_of_le cs ov n g start (by omega)).symm
  | succ f ih =>
    intro g start h1 h2
    by_cases hs : start < n
    · cases g with
      | zero => omega
      | succ g =>
        simp only [chunkLoop, if_pos hs]
        congr 1
        by_cases he : n ≤ min (start + cs) n
        · simp [he]
        · simp only [if_neg he]
          have hmin : min (start + cs) n = start + cs := by omega
          rw [hmin]
          exact ih g (start + cs - ov) (by omega) (by omega)
    · rw [chunkLoop_nil_of_le cs ov n _ start (by omega),
        chunkLoop_nil_of_le cs ov n g start (by omega)]

theorem chunkLoop_length_le (cs ov n : ℕ) (hov : ov < cs) :
    ∀ f start, (chunkLoop cs ov n f start).length ≤ (n - start) / (cs - ov) + 1 := by
  intro f
  induction f with
  | zero => intro start; simp [chunkLoop]
  | succ f ih =>
    intro start
    by_cases hs : start < n
    · simp only [chunkLoop, if_pos hs]
      by_cases he : n ≤ min (start + cs) n
      · simp [he]
      · simp only [if_neg he, List.length_cons]
        have hmin : min (start + cs) n = start + cs := by omega
        rw [hmin]
        have h1 := ih (start + cs - ov)
        have hsub : n - (start + cs - ov) = n - start - (cs - ov) := by omega
        rw [hsub] at h1
        have hd : 0 < cs - ov := by omega
        have hm : cs - ov ≤ n - start := by omega
        have key : (n - start - (cs - ov)) / (cs - ov) + 1 = (n - start) / (cs - ov) := by
          rw [← Nat.add_div_right _ hd, Nat.sub_add_cancel hm]
        omega
    · simp [chunkLoop, hs]

theorem chunkLoop_step (cs ov n : ℕ) (hov : ov < cs) (f start : ℕ) (h : start + cs < n) :
    chunkLoop cs ov n (f + 1) start
      = (start, start + cs) :: chunkLoop cs ov n f (start + (cs - ov)) := by
  have hs : start < n := by omega
  have hmin : min (start + cs) n = start + cs := by omega
  rw [show start + (cs - ov) = start + cs - ov from by omega]
  simp only [chunkLoop, if_pos hs, hmin, if_neg (by omega : ¬ n ≤ start + cs)]

/-- C10. When `overlap_size < chunk_size`, each non-final iteration of the
`chunk_text` loop advances the start index by exactly
`chunk_size − overlap_size > 0`, so the loop terminates: any fuel larger
than the word count computes the same window list as `chunkWindows`
(fuel `n + 1`), and the number of windows is at most
`n / (chunk_size − overlap_size) + 1`. The strict inequality is the
termination precondition: the code itself never re-checks it. -/
theorem chunk_loop_terminates (cs ov n : ℕ) (hov : ov < cs) :
    0 < cs - ov
    ∧ (∀ f start, start + cs < n →
        chunkLoop cs ov n (f + 1) start
          = (start, start + cs) :: chunkLoop cs ov n f (start + (cs - ov)))
    ∧ (∀ g, n < g → chunkLoop cs ov n g 0 = chunkWindows cs ov n)
    ∧ (chunkWindows cs ov n).length ≤ n / (cs - ov) + 1 := by
  refine ⟨by omega, fun f start h => chunkLoop_step cs ov n hov f start h,
    fun g hg => chunkLoop_stable cs ov n hov g (n + 1) 0 (by omega) (by omega), ?_⟩
  simpa [chunkWindows] using chunkLoop_length_le cs ov n hov (n + 1) 0

theorem chunk_loop_terminates_witness :
    (1 : ℕ) < 3
    ∧ (0 < 3 - 1
      ∧ (∀ f start, start + 3 < 7 →
          chunkLoop 3 1 7 (f + 1) start
            = (start, start + 3) :: chunkLoop 3 1 7 f (start + (3 - 1)))
      ∧ (∀ g, 7 < g → chunkLoop 3 1 7 g 0 = chunkWindows 3 1 7)
      ∧ (chunkWindows 3 1 7).length ≤ 7 / (3 - 1) + 1) :=
  ⟨by decide, chunk_loop_terminates 3 1 7 (by decide)⟩

theorem chunkLoop_mem (cs ov n : ℕ) (hcs : 0 < cs) :
    ∀ f start, ∀ w ∈ chunkLoop cs ov n f start, w.2 = min (w.1 + cs) n ∧ w.1 < w.2 := by
  intro f
  induction f with
  | zero => intro start w hw; simp [chunkLoop] at hw
  | succ f ih =>
    intro start w hw
    by_cases hs : start < n
    · simp only [chunkLoop, if_pos hs] at hw
      rcases List.mem_cons.mp hw with h | h
      · subst h
        exact ⟨rfl, by simp; omega⟩
      · by_cases he : n ≤ min (start + cs) n
        · simp [he] at h
        · simp only [if_neg he] at h
          exact ih _ w h
    · simp [chunkLoop, hs] at hw

theorem chunkLoop_head (cs ov n : ℕ) :
    ∀ f start, start < n → 0 < f →
      (chunkLoop cs ov n f start).head? = some (start, min (start + cs) n) := by
  intro f start hs hf
  cases f with
  | zero => omega
  | succ f => simp [chunkLoop, hs]

theorem chunkLoop_chain (cs ov n : ℕ) (hov : ov < cs) :
    ∀ f start, List.Chain' (fun a b : ℕ × ℕ =>
        a.1 + (cs - ov) = b.1 ∧ b.1 + ov = a.2 ∧ a.2 = a.1 + cs ∧ a.2 ≤ b.2)
      (chunkLoop cs ov n f start) := by
  intro f
  induction f with
  | zero => intro start; simp [chunkLoop]
  | succ f ih =>
    intro start
    by_cases hs : start < n
    · simp only [chunkLoop, if_pos hs]
      by_cases he : n ≤ min (start + cs) n
      · simp [he]
      · simp only [if_neg he]
        have hmin : min (start + cs) n = start + cs := by omega
        have hlt : start + cs < n := by omega
        rw [hmin, List.chain'_cons']
        refine ⟨?_, ih _⟩
        intro y hy
        by_cases hf : 0 < f
        · have hs' : start + cs - ov < n := by omega
          rw [chunkLoop_head cs ov n f _ hs' hf] at hy
          simp only [Option.mem_def, Option.some.injEq] at hy
          subst hy
          refine ⟨by omega, by omega, by omega, by omega⟩
        · have hf0 : f = 0 := by omega
          subst hf0
          simp [chunkLoop] at hy
    · simp [chunkLoop, hs]

theorem chunkLoop_last (cs ov n : ℕ) (hov : ov < cs) :
    ∀ f start, start < n → n < start + f →
      ∃ w, (chunkLoop cs ov n f start).getLast? = some w ∧ w.2 = n := by
  intro f
  induction f with
  | zero => intro start h1 h2; omega
  | succ f ih =>
    intro start h1 h2
    by_cases he : n ≤ min (start + cs) n
    · have hmin : min (start + cs) n = n := by omega
      refine ⟨(start, n), ?_, rfl⟩
      simp [chunkLoop, h1, he, hmin]
    · have hmin : min (start + cs) n = start + cs := by omega
      have hs' : start + cs - ov < n := by omega
      have hf' : n < (start + cs - ov) + f := by omega
      obtain ⟨w, hw, hw2⟩ := ih (start + cs - ov) hs' hf'
      refine ⟨w, ?_, hw2⟩
      cases htail : chunkLoop cs ov n f (start + cs - ov) with
      | nil => rw [htail] at hw; simp at hw
      | cons b t =>
        rw [htail] at hw
        simp only [chunkLoop, if_pos h1, hmin,
          if_neg (show ¬ n ≤ start + cs by omega), htail]
        rw [List.getLast?_cons_cons]
        exact hw

theorem chunkLoop_cover (cs ov n : ℕ) (hov : ov < cs) :
    ∀ f start, n < start + f → ∀ j, start ≤ j → j < n →
      ∃ w ∈ chunkLoop cs ov n f start, w.1 ≤ j ∧ j < w.2 := by
  intro f
  induction f with
  | zero => intro start h j hj1 hj2; omega
  | succ f ih =>
    intro start h j hj1 hj2
    have hs : start < n := by omega
    by_cases hjw : j < min (start + cs) n
    · refine ⟨(start, min (start + cs) n), ?_, hj1, hjw⟩
      simp [chunkLoop, hs]
    · have hmin : min (start + cs) n = start + cs := by omega
      have hlt : start + cs < n := by omega
      obtain ⟨w, hw, hw1, hw2⟩ := ih (start + cs - ov) (by omega) j (by omega) hj2
      refine ⟨w, ?_, hw1, hw2⟩
      simp only [chunkLoop, if_pos hs, hmin,
        if_neg (show ¬ n ≤ start + cs by omega)]
      exact List.mem_cons_of_mem _ hw

/-- C4. For word counts above `chunk_size` (with
`overlap_size < chunk_size`): the first pre-trim window is `(0, cs)`;
every window ends at `min (start + cs) n` and is non-degenerate;
consecutive windows advance the start by exactly `cs − ov`, the next
start is the previous untrimmed end minus `ov` (so consecutive windows
overlap in exactly `ov` word positions), and ends are monotone; the last
window extends to the end of the text; every word index is covered by
some window; and `chunk_text` emits exactly one (possibly trimmed) chunk
per window regardless of the `respect_boundaries` flag — trimming never
enters the sliding arithmetic. -/
theorem chunk_windows_slide (cs ov n : ℕ) (hov : ov < cs) (hn : cs < n) :
    (chunkWindows cs ov n).head? = some (0, cs)
    ∧ (∀ w ∈ chunkWindows cs ov n, w.2 = min (w.1 + cs) n ∧ w.1 < w.2)
    ∧ List.Chain' (fun a b : ℕ × ℕ =>
        a.1 + (cs - ov) = b.1 ∧ b.1 + ov = a.2 ∧ a.2 = a.1 + cs ∧ a.2 ≤ b.2)
        (chunkWindows cs ov n)
    ∧ (∃ w, (chunkWindows cs ov n).getLast? = some w ∧ w.2 = n)
    ∧ (∀ j, j < n → ∃ w ∈ chunkWindows cs ov n, w.1 ≤ j ∧ j < w.2)
    ∧ (∀ (text : String) (rb : Bool), isBlank text = false → (pyWords text).length = n →
        chunk_text ⟨cs, ov, rb⟩ text
          = (chunkWindows cs ov n).map (fun w =>
              if rb ∧ w.2 < n then
                adjustToBoundary (joinWords (((pyWords text).drop w.1).take (w.2 - w.1)))
              else joinWords (((pyWords text).drop w.1).take (w.2 - w.1)))) := by
  refine ⟨?_, fun w hw => chunkLoop_mem cs ov n (by omega) _ 0 w hw,
    chunkLoop_chain cs ov n hov _ 0,
    chunkLoop_last cs ov n hov (n + 1) 0 (by omega) (by omega),
    fun j hj => chunkLoop_cover cs ov n hov (n + 1) 0 (by omega) j (by omega) hj, ?_⟩
  · have h := chunkLoop_head cs ov n (n + 1) 0 (by omega) (by omega)
    simpa [chunkWindows, min_eq_left (le_of_lt hn)] using h
  · intro text rb hblank hlen
    unfold chunk_text
    rw [if_neg (by simp [hblank])]
    dsimp only
    rw [hlen, if_neg (by omega : ¬ n ≤ cs)]

theorem chunk_windows_slide_witness :
    ((1 : ℕ) < 3 ∧ (3 : ℕ) < 7)
    ∧ ((chunkWindows 3 1 7).head? = some (0, 3)
      ∧ (∀ w ∈ chunkWindows 3 1 7, w.2 = min (w.1 + 3) 7 ∧ w.1 < w.2)
      ∧ List.Chain' (fun a b : ℕ × ℕ =>
          a.1 + (3 - 1) = b.1 ∧ b.1 + 1 = a.2 ∧ a.2 = a.1 + 3 ∧ a.2 ≤ b.2)
          (chunkWindows 3 1 7)
      ∧ (∃ w, (chunkWindows 3 1 7).getLast? = some w ∧ w.2 = 7)
      ∧ (∀ j, j < 7 → ∃ w ∈ chunkWindows 3 1 7, w.1 ≤ j ∧ j < w.2)
      ∧ (∀ (text : String) (rb : Bool), isBlank text = false → (pyWords text).length = 7 →
          chunk_text ⟨3, 1, rb⟩ text
            = (chunkWindows 3 1 7).map (fun w =>
                if rb ∧ w.2 < 7 then
                  adjustToBoundary (joinWords (((pyWords text).drop w.1).take (w.2 - w.1)))
                else joinWords (((pyWords text).drop w.1).take (w.2 - w.1))))) :=
  ⟨⟨by decide, by decide⟩, chunk_windows_slide 3 1 7 (by decide) (by decide)⟩

theorem pyStripL_length_le (l : List Char) : (pyStripL l).length ≤ l.length := by
  unfold pyStripL
  calc ((l.dropWhile Char.isWhitespace).reverse.dropWhile Char.isWhitespace).reverse.length
      = ((l.dropWhile Char.isWhitespace).reverse.dropWhile Char.isWhitespace).length := by
        simp
    _ ≤ (l.dropWhile Char.isWhitespace).reverse.length := length_dropWhile_le' _ _
    _ = (l.dropWhile Char.isWhitespace).length := by simp
    _ ≤ l.length := length_dropWhile_le' _ _

/-- There is a paragraph break (`"\n\n"`) at index `i`. -/
def paraAt (l : List Char) (i : ℕ) : Prop :=
  (l.drop i).take 2 = ['\n', '\n']

instance (l : List Char) (i : ℕ) : Decidable (paraAt l i) := by
  unfold paraAt
  infer_instance

/-- A chunk text with two paragraph breaks: the first one in the front
half, a second one in the back half, and no sentence punctuation. -/
def exC6 : List Char := "x\n\nyyyyyyyyyyyyyyyyyyyy\n\nz".data

/-- C6 counterexample. `exC6` has a paragraph break in the back half of
the window (index 23 of 26), yet `_adjust_to_boundary` returns the text
unchanged — the code tests only the *first* `"\n\n"` occurrence (index 1,
front half) against the back-half condition, so no qualifying paragraph
break leads to a trim. -/
theorem adjust_paragraph_counterexample :
    paraAt exC6 23 ∧ 2 * 23 > exC6.length
    ∧ adjustL exC6 = exC6
    ∧ (∀ i, i < exC6.length → paraAt exC6 i → 2 * i > exC6.length →
        adjustL exC6 ≠ exC6.take i) := by
  decide

/-- C6 amended. When `respect_boundaries` trimming runs: the chunk is
trimmed at the *first* paragraph break if that break falls in the back
half of the window; otherwise at the last sentence-ending match
(punctuation followed by whitespace) whose end falls in the back half
(equivalently, the Python code walks matches in reverse and stops at the
first qualifying one); otherwise the chunk is left unchanged; and
trimming only ever shortens the emitted text, never extends it. -/
theorem adjust_boundary_amended :
    (∀ (l : List Char) i, firstPara l = some i → 2 * i > l.length →
      adjustL l = l.take i)
    ∧ (∀ (l : List Char) e, (∀ i ∈ firstPara l, ¬ 2 * i > l.length) →
        (sentEnds 0 l).reverse.find? (fun e => decide (2 * e > l.length)) = some e →
        adjustL l = pyStripL (l.take e))
    ∧ (∀ l : List Char, (∀ i ∈ firstPara l, ¬ 2 * i > l.length) →
        (sentEnds 0 l).reverse.find? (fun e => decide (2 * e > l.length)) = none →
        adjustL l = l)
    ∧ (∀ l : List Char, (adjustL l).length ≤ l.length)
    ∧ (∀ s : String, adjustToBoundary s = String.mk (adjustL s.data)) := by
  refine ⟨?_, ?_, ?_, ?_, fun s => rfl⟩
  · intro l i hp hi
    unfold adjustL
    rw [hp]
    simp [hi]
  · intro l e hp hf
    unfold adjustL
    cases h : firstPara l with
    | none => simp [hf]
    | some i =>
      have hi : ¬ 2 * i > l.length := hp i (by simp [h])
      simp [hi, hf]
  · intro l hp hf
    unfold adjustL
    cases h : firstPara l with
    | none => simp [hf]
    | some i =>
      have hi : ¬ 2 * i > l.length := hp i (by simp [h])
      simp [hi, hf]
  · intro l
    unfold adjustL
    cases h : firstPara l with
    | none =>
      cases hf : (sentEnds 0 l).reverse.find? (fun e => decide (2 * e > l.length)) with
      | none => simp
      | some e =>
        simp only
        calc (pyStripL (l.take e)).length ≤ (l.take e).length := pyStripL_length_le _
          _ ≤ l.length := by simp
    | some i =>
      by_cases hi : 2 * i > l.length
      · simp only [if_pos hi]
        simp
      · simp only [if_neg hi]
        cases hf : (sentEnds 0 l).reverse.find? (fun e => decide (2 * e > l.length)) with
        | none => simp
        | some e =>
          simp only
          calc (pyStripL (l.take e)).length ≤ (l.take e).length := pyStripL_length_le _
            _ ≤ l.length := by simp

/-- A chunk text with no paragraph break and two sentence boundaries. -/
def exS6 : List Char := "aaaaaa. bb. cc".data

/-- A chunk text whose first paragraph break lies in the back half. -/
def exP6 : List Char := "aaaaa\n\nbb".data

theorem adjust_boundary_amended_witness :
    (firstPara exP6 = some 5 ∧ 2 * 5 > exP6.length ∧ adjustL exP6 = exP6.take 5)
    ∧ (firstPara exS6 = none
      ∧ (sentEnds 0 exS6).reverse.find? (fun e => decide (2 * e > exS6.length)) = some 12
      ∧ adjustL exS6 = pyStripL (exS6.take 12))
    ∧ (adjustL exS6).length ≤ exS6.length :=
  ⟨⟨by decide, by decide, adjust_boundary_amended.1 exP6 5 (by decide) (by decide)⟩,
   ⟨by decide, by decide,
    adjust_boundary_amended.2.1 exS6 12
      (by intro i hi; rw [show firstPara exS6 = none from by decide] at hi; simp at hi)
      (by decide)⟩,
   adjust_boundary_amended.2.2.2.1 exS6⟩

theorem length_insertDesc (x : SChunk) (l : List SChunk) :
    (insertDesc x l).length = l.length + 1 := by
  induction l with
  | nil => rfl
  | cons y ys ih =>
    by_cases h : y.combined ≤ x.combined <;> simp [insertDesc, h, ih]

theorem length_sortDesc (l : List SChunk) : (sortDesc l).length = l.length := by
  induction l with
  | nil => rfl
  | cons x xs ih => simp [sortDesc, length_insertDesc, ih]

theorem mem_insertDesc (x : SChunk) (l : List SChunk) (z : SChunk) :
    z ∈ insertDesc x l ↔ z = x ∨ z ∈ l := by
  induction l with
  | nil => simp [insertDesc]
  | cons y ys ih =>
    by_cases h : y.combined ≤ x.combined
    · simp [insertDesc, h]
    · simp only [insertDesc, if_neg h, List.mem_cons, ih]
      tauto

theorem pairwise_insertDesc (x : SChunk) (l : List SChunk)
    (h : l.Pairwise (fun a b => b.combined ≤ a.combined)) :
    (insertDesc x l).Pairwise (fun a b => b.combined ≤ a.combined) := by
  induction l with
  | nil => simp [insertDesc]
  | cons y ys ih =>
    rw [List.pairwise_cons] at h
    by_cases hc : y.combined ≤ x.combined
    · rw [insertDesc, if_pos hc, List.pairwise_cons]
      refine ⟨?_, List.pairwise_cons.mpr h⟩
      intro z hz
      rcases List.mem_cons.mp hz with hz | hz
      · exact hz ▸ hc
      · exact (h.1 z hz).trans hc
    · rw [insertDesc, if_neg hc, List.pairwise_cons]
      refine ⟨?_, ih h.2⟩
      intro z hz
      rcases (mem_insertDesc x ys z).mp hz with hz | hz
      · exact hz ▸ le_of_lt (lt_of_not_le hc)
      · exact h.1 z hz

theorem pairwise_sortDesc (l : List SChunk) :
    (sortDesc l).Pairwise (fun a b => b.combined ≤ a.combined) := by
  induction l with
  | nil => simp [sortDesc]
  | cons x xs ih => exact pairwise_insertDesc x (sortDesc xs) ih

theorem filter_insertDesc (x : SChunk) (l : List SChunk) (v : ℚ) :
    (insertDesc x l).filter (fun s => decide (s.combined = v))
      = if x.combined = v then x :: l.filter (fun s => decide (s.combined = v))
        else l.filter (fun s => decide (s.combined = v)) := by
  induction l with
  | nil => by_cases h : x.combined = v <;> simp [insertDesc, h]
  | cons y ys ih =>
    by_cases hc : y.combined ≤ x.combined
    · rw [insertDesc, if_pos hc]
      by_cases h : x.combined = v <;> simp [h, List.filter_cons]
    · rw [insertDesc, if_neg hc, List.filter_cons, ih]
      by_cases hy : y.combined = v
      · by_cases hx : x.combined = v
        · exact absurd (hx.trans hy.symm ▸ le_refl x.combined) hc
        · simp [hy, hx, List.filter_cons]
      · by_cases hx : x.combined = v <;> simp [hy, hx, List.filter_cons]

/-- Stability of the sort: for every key value, the sorted list preserves
the input's subsequence of elements having that combined score. -/
theorem filter_sortDesc (l : List SChunk) (v : ℚ) :
    (sortDesc l).filter (fun s => decide (s.combined = v))
      = l.filter (fun s => decide (s.combined = v)) := by
  induction l with
  | nil => rfl
  | cons x xs ih =>
    rw [sortDesc, filter_insertDesc]
    by_cases h : x.combined = v <;> simp [h, List.filter_cons, ih]

/-- The main path of `filter_chunks_by_selection` (non-empty selection):
score, stable-sort, threshold-filter with fallback, truncate. -/
theorem filter_chunks_main (θ : ℚ) (retrieved : List RChunk) (selected : String)
    (max_results : ℕ) (hsel : selected ≠ "") :
    filter_chunks_by_selection θ retrieved selected max_results
      = ((if (sortDesc (retrieved.map (scoreChunk (extractKeywords selected)))).filter
              (fun s => decide (θ ≤ s.overlap)) = []
            ∧ ¬ sortDesc (retrieved.map (scoreChunk (extractKeywords selected))) = []
          then (sortDesc (retrieved.map (scoreChunk (extractKeywords selected)))).take
              max_results
          else (sortDesc (retrieved.map (scoreChunk (extractKeywords selected)))).filter
              (fun s => decide (θ ≤ s.overlap))).take max_results).map
        (fun s => ⟨s.chunk, some s.combined, some s.overlap⟩) := by
  by_cases hr : retrieved = []
  · subst hr
    simp [filter_chunks_by_selection, sortDesc]
  · rw [filter_chunks_by_selection, if_neg (by simp [hsel, hr])]

theorem filter_chunks_length_le (θ : ℚ) (retrieved : List RChunk) (selected : String)
    (max_results : ℕ) :
    (filter_chunks_by_selection θ retrieved selected max_results).length ≤ max_results := by
  rw [filter_chunks_by_selection]
  split_ifs <;>
    simp only [List.length_map, List.length_take] <;>
    exact Nat.min_le_left _ _

/-- A candidate with vector score 0. -/
def cexA : RChunk := { score := 0, payload := { chunk_text := some "alpha beta" } }

/-- A candidate with vector score 1. -/
def cexB : RChunk := { score := 1, payload := { chunk_text := some "gamma delta" } }

/-- C2 counterexample. With an empty selected text the handler
short-circuits: it returns the first `max_results` candidates in their
original order, unscored (`combined_score` key absent). Here it returns
the candidate with the strictly smaller combined score and drops the
larger one, contradicting the claimed score/sort/threshold/fallback
behaviour, which quantifies over every selected text. -/
theorem selection_empty_counterexample :
    (filter_chunks_by_selection (3/10) [cexA, cexB] "" 1).map (fun s => s.chunk) = [cexA]
    ∧ cexA ≠ cexB
    ∧ (scoreChunk (extractKeywords "") cexA).combined
        < (scoreChunk (extractKeywords "") cexB).combined
    ∧ (∀ s ∈ filter_chunks_by_selection (3/10) [cexA, cexB] "" 1,
        s.combined_score = none) := by
  refine ⟨by decide, by decide, ?_, by decide⟩
  simp [scoreChunk, overlapScore, extractKeywords, cexA, cexB, pyWords, lowerStr,
    wsplit, wsplitAux]

/-- C2 amended: restricted to a non-empty selected text (with an empty
selection the code bypasses scoring and returns the first `max_results`
candidates unchanged). Each candidate is assigned
`0.6 × vector_score + 0.4 × overlap_score` with the overlap score the
Jaccard similarity of the chunk's lowercase token set against the
selection's keyword set (0 when the union is empty); candidates are
stable-sorted descending by combined score (ties keep input order);
candidates below the overlap threshold are removed unless that would
remove all of them (fallback: top `max_results` of the sorted list); the
result is truncated to `max_results`, and in the non-fallback case every
returned item meets the overlap threshold. -/
theorem selection_ranking (θ : ℚ) (retrieved : List RChunk) (selected : String)
    (max_results : ℕ) (hsel : selected ≠ "") :
    (∀ c ∈ retrieved, scoreChunk (extractKeywords selected) c
        = ⟨c, c.score * (3/5)
              + overlapScore (c.payload.chunk_text.getD "") (extractKeywords selected)
                * (2/5),
            overlapScore (c.payload.chunk_text.getD "") (extractKeywords selected)⟩)
    ∧ (∀ ct : String,
        ((pyWords (lowerStr ct)).toFinset ∪ extractKeywords selected = ∅ →
          overlapScore ct (extractKeywords selected) = 0)
        ∧ ((pyWords (lowerStr ct)).toFinset ∪ extractKeywords selected ≠ ∅ →
          overlapScore ct (extractKeywords selected)
            = (((pyWords (lowerStr ct)).toFinset ∩ extractKeywords selected).card : ℚ)
              / (((pyWords (lowerStr ct)).toFinset ∪ extractKeywords selected).card : ℚ)))
    ∧ (sortDesc (retrieved.map (scoreChunk (extractKeywords selected)))).Pairwise
        (fun a b => b.combined ≤ a.combined)
    ∧ (∀ v : ℚ,
        (sortDesc (retrieved.map (scoreChunk (extractKeywords selected)))).filter
            (fun s => decide (s.combined = v))
          = (retrieved.map (scoreChunk (extractKeywords selected))).filter
              (fun s => decide (s.combined = v)))
    ∧ filter_chunks_by_selection θ retrieved selected max_results
        = ((if (sortDesc (retrieved.map (scoreChunk (extractKeywords selected)))).filter
                (fun s => decide (θ ≤ s.overlap)) = []
              ∧ ¬ sortDesc (retrieved.map (scoreChunk (extractKeywords selected))) = []
            then (sortDesc (retrieved.map (scoreChunk (extractKeywords selected)))).take
                max_results
            else (sortDesc (retrieved.map (scoreChunk (extractKeywords selected)))).filter
                (fun s => decide (θ ≤ s.overlap))).take max_results).map
          (fun s => ⟨s.chunk, some s.combined, some s.overlap⟩)
    ∧ ((sortDesc (retrieved.map (scoreChunk (extractKeywords selected)))).filter
          (fun s => decide (θ ≤ s.overlap)) ≠ [] →
        ∀ s ∈ filter_chunks_by_selection θ retrieved selected max_results,
          θ ≤ s.text_overlap.getD 0)
    ∧ (filter_chunks_by_selection θ retrieved selected max_results).length
        ≤ max_results := by
  refine ⟨fun c _ => rfl, ?_, pairwise_sortDesc _, fun v => filter_sortDesc _ v,
    filter_chunks_main θ retrieved selected max_results hsel, ?_,
    filter_chunks_length_le θ retrieved selected max_results⟩
  · intro ct
    constructor
    · intro hu
      obtain ⟨hcw, hkw⟩ := Finset.union_eq_empty.mp hu
      simp [overlapScore, hkw]
    · intro hu
      by_cases hkw : extractKeywords selected = ∅
      · rw [overlapScore, if_pos hkw]
        rw [hkw]
        simp
      · rw [overlapScore, if_neg hkw]
        have hcard : ((pyWords (lowerStr ct)).toFinset ∪ extractKeywords selected).card ≠ 0 := by
          simpa [Finset.card_eq_zero] using hu
        rw [if_neg hcard]
  · intro hne s hs
    rw [filter_chunks_main θ retrieved selected max_results hsel] at hs
    rw [if_neg (fun hc => hne hc.1)] at hs
    obtain ⟨t, ht, rfl⟩ := List.mem_map.mp hs
    have ht' := List.take_subset _ _ ht
    have := (List.mem_filter.mp ht').2
    simpa using of_decide_eq_true this

theorem selection_ranking_witness :
    ("alpha beta gamma" ≠ "")
    ∧ ((∀ c ∈ [cexA, cexB], scoreChunk (extractKeywords "alpha beta gamma") c
        = ⟨c, c.score * (3/5)
              + overlapScore (c.payload.chunk_text.getD "")
                  (extractKeywords "alpha beta gamma") * (2/5),
            overlapScore (c.payload.chunk_text.getD "")
              (extractKeywords "alpha beta gamma")⟩)
    ∧ (∀ ct : String,
        ((pyWords (lowerStr ct)).toFinset ∪ extractKeywords "alpha beta gamma" = ∅ →
          overlapScore ct (extractKeywords "alpha beta gamma") = 0)
        ∧ ((pyWords (lowerStr ct)).toFinset ∪ extractKeywords "alpha beta gamma" ≠ ∅ →
          overlapScore ct (extractKeywords "alpha beta gamma")
            = (((pyWords (lowerStr ct)).toFinset ∩ extractKeywords "alpha beta gamma").card : ℚ)
              / (((pyWords (lowerStr ct)).toFinset ∪ extractKeywords "alpha beta gamma").card : ℚ)))
    ∧ (sortDesc ([cexA, cexB].map (scoreChunk (extractKeywords "alpha beta gamma")))).Pairwise
        (fun a b => b.combined ≤ a.combined)
    ∧ (∀ v : ℚ,
        (sortDesc ([cexA, cexB].map (scoreChunk (extractKeywords "alpha beta gamma")))).filter
            (fun s => decide (s.combined = v))
          = ([cexA, cexB].map (scoreChunk (extractKeywords "alpha beta gamma"))).filter
              (fun s => decide (s.combined = v)))
    ∧ filter_chunks_by_selection (3/10) [cexA, cexB] "alpha beta gamma" 1
        = ((if (sortDesc ([cexA, cexB].map (scoreChunk (extractKeywords "alpha beta gamma")))).filter
                (fun s => decide ((3/10 : ℚ) ≤ s.overlap)) = []
              ∧ ¬ sortDesc ([cexA, cexB].map (scoreChunk (extractKeywords "alpha beta gamma"))) = []
            then (sortDesc ([cexA, cexB].map (scoreChunk (extractKeywords "alpha beta gamma")))).take 1
            else (sortDesc ([cexA, cexB].map (scoreChunk (extractKeywords "alpha beta gamma")))).filter
                (fun s => decide ((3/10 : ℚ) ≤ s.overlap))).take 1).map
          (fun s => ⟨s.chunk, some s.combined, some s.overlap⟩)
    ∧ ((sortDesc ([cexA, cexB].map (scoreChunk (extractKeywords "alpha beta gamma")))).filter
          (fun s => decide ((3/10 : ℚ) ≤ s.overlap)) ≠ [] →
        ∀ s ∈ filter_chunks_by_selection (3/10) [cexA, cexB] "alpha beta gamma" 1,
          (3/10 : ℚ) ≤ s.text_overlap.getD 0)
    ∧ (filter_chunks_by_selection (3/10) [cexA, cexB] "alpha beta gamma" 1).length ≤ 1) :=
  ⟨by decide, selection_ranking (3/10) [cexA, cexB] "alpha beta gamma" 1 (by decide)⟩

/-- C3. For a non-empty candidate list and `max_results ≥ 1` the handler
never returns an empty list, and when the overlap filter removes every
candidate (non-empty selection) it returns the top `max_results` of the
unfiltered sorted list. -/
theorem selection_fallback_nonempty (θ : ℚ) (retrieved : List RChunk)
    (selected : String) (max_results : ℕ)
    (hne : retrieved ≠ []) (hmax : 1 ≤ max_results) :
    filter_chunks_by_selection θ retrieved selected max_results ≠ []
    ∧ (selected ≠ "" →
        (sortDesc (retrieved.map (scoreChunk (extractKeywords selected)))).filter
            (fun s => decide (θ ≤ s.overlap)) = [] →
        filter_chunks_by_selection θ retrieved selected max_results
          = ((sortDesc (retrieved.map (scoreChunk (extractKeywords selected)))).take
              max_results).map
              (fun s => ⟨s.chunk, some s.combined, some s.overlap⟩)) := by
  have hsorted : sortDesc (retrieved.map (scoreChunk (extractKeywords selected))) ≠ [] := by
    intro hcon
    have := congrArg List.length hcon
    rw [length_sortDesc] at this
    simp [hne] at this
  constructor
  · by_cases hsel : selected = ""
    · subst hsel
      rw [filter_chunks_by_selection, if_pos (Or.inl rfl)]
      intro hcon
      rw [List.map_eq_nil_iff, List.take_eq_nil_iff] at hcon
      rcases hcon with h | h
      · omega
      · exact hne h
    · rw [filter_chunks_main θ retrieved selected max_results hsel]
      by_cases hfil : (sortDesc (retrieved.map (scoreChunk (extractKeywords selected)))).filter
          (fun s => decide (θ ≤ s.overlap)) = []
      · rw [if_pos ⟨hfil, hsorted⟩]
        intro hcon
        rw [List.map_eq_nil_iff, List.take_eq_nil_iff, List.take_eq_nil_iff] at hcon
        rcases hcon with h | h | h
        · omega
        · omega
        · exact hsorted h
      · rw [if_neg (fun hc => hfil hc.1)]
        intro hcon
        rw [List.map_eq_nil_iff, List.take_eq_nil_iff] at hcon
        rcases hcon with h | h
        · omega
        · exact hfil h
  · intro hsel hfil
    rw [filter_chunks_main θ retrieved selected max_results hsel,
      if_pos ⟨hfil, hsorted⟩, List.take_take, min_self]

theorem selection_fallback_nonempty_witness :
    ([cexA, cexB] ≠ ([] : List RChunk)) ∧ (1 : ℕ) ≤ 1
    ∧ (filter_chunks_by_selection (3/10) [cexA, cexB] "" 1 ≠ []
      ∧ ("" ≠ "" →
          (sortDesc ([cexA, cexB].map (scoreChunk (extractKeywords "")))).filter
              (fun s => decide ((3/10 : ℚ) ≤ s.overlap)) = [] →
          filter_chunks_by_selection (3/10) [cexA, cexB] "" 1
            = ((sortDesc ([cexA, cexB].map (scoreChunk (extractKeywords "")))).take 1).map
                (fun s => ⟨s.chunk, some s.combined, some s.overlap⟩))) :=
  ⟨by decide, by decide,
   selection_fallback_nonempty (3/10) [cexA, cexB] "" 1 (by decide) (by decide)⟩

theorem zipWith_mean_getD (v1 v2 : List ℚ) (hlen : v1.length = v2.length) :
    ∀ i, i < v1.length →
      (List.zipWith (fun a b => (a + b) / 2) v1 v2).getD i 0
        = (v1.getD i 0 + v2.getD i 0) / 2 := by
  induction v1 generalizing v2 with
  | nil => intro i hi; simp at hi
  | cons a t ih =>
    intro i hi
    cases v2 with
    | nil => simp at hlen
    | cons b u =>
      cases i with
      | zero => rfl
      | succ i =>
        have := ih u (by simpa using hlen) i (by simpa using hi)
        simpa using this

/-- C1. Selected-text retrieval: the query text and the selected passage
are embedded independently and blended by element-wise arithmetic mean
(proved element-wise for equal-length embeddings); the vector index is
searched with similarity floor 0.6; only candidates sharing more than 3
distinct lowercase words with the selected passage are kept; the result
is truncated to the `max_results` argument. As invoked by
`process_query`, the search limit is `max_results × 2` (over-fetch) and
the step-1 output is truncated to `max_results` by the downstream
selection handler. -/
theorem retrieve_selected_text_blend (embed : String → List ℚ)
    (search : List ℚ → ℕ → ℚ → List RChunk) (query selected : String)
    (hlen : (embed query).length = (embed selected).length) :
    ((List.zipWith (fun q s => (q + s) / 2) (embed query) (embed selected)).length
        = (embed query).length
      ∧ ∀ i, i < (embed query).length →
          (List.zipWith (fun q s => (q + s) / 2) (embed query) (embed selected)).getD i 0
            = ((embed query).getD i 0 + (embed selected).getD i 0) / 2)
    ∧ (∀ m, retrieve_for_selected_text embed search query selected m
        = ((search (List.zipWith (fun q s => (q + s) / 2) (embed query) (embed selected))
              m (3/5)).filter
            (fun r => decide (3 < sharedWordCount selected (r.payload.chunk_text.getD "")))).take m)
    ∧ (∀ m, (retrieve_for_selected_text embed search query selected m).length ≤ m)
    ∧ (∀ (complete : String → String → String) (fmtScore : ℚ → String)
        (req : QueryRequest), req.query_mode = "selected-text" →
        req.selected_text = some selected → selected ≠ "" → req.query_text = query →
        processRetrieved ⟨embed, search, complete, fmtScore⟩ req
          = filter_chunks_by_selection (3/10)
              (retrieve_for_selected_text embed search query selected (req.max_results * 2))
              selected req.max_results
        ∧ (processRetrieved ⟨embed, search, complete, fmtScore⟩ req).length
            ≤ req.max_results) := by
  refine ⟨⟨?_, zipWith_mean_getD (embed query) (embed selected) hlen⟩,
    fun m => rfl, ?_, ?_⟩
  · rw [List.length_zipWith]
    omega
  · intro m
    unfold retrieve_for_selected_text
    dsimp only
    rw [List.length_take]
    exact Nat.min_le_left _ _
  · intro complete fmtScore req hmode hsel hne hq
    have hcond : req.query_mode = "selected-text" ∧ req.selected_text.getD "" ≠ "" := by
      rw [hmode, hsel]
      exact ⟨rfl, hne⟩
    constructor
    · rw [processRetrieved, if_pos hcond, hsel, hq]
      rfl
    · rw [processRetrieved, if_pos hcond]
      exact filter_chunks_length_le _ _ _ _

/-- A mock embedder for the retrieval witness. -/
def wEmbed : String → List ℚ := fun s => if s = "what" then [1, 3] else [3, 5]

/-- A mock vector search for the retrieval witness. -/
def wSearch : List ℚ → ℕ → ℚ → List RChunk :=
  fun v lim t => if v = [2, 4] ∧ t = 3/5 then [cexA, cexB].take lim else []

theorem retrieve_selected_text_blend_witness :
    ((wEmbed "what").length = (wEmbed "sel").length)
    ∧ (((List.zipWith (fun q s => (q + s) / 2) (wEmbed "what") (wEmbed "sel")).length
          = (wEmbed "what").length
        ∧ ∀ i, i < (wEmbed "what").length →
            (List.zipWith (fun q s => (q + s) / 2) (wEmbed "what") (wEmbed "sel")).getD i 0
              = ((wEmbed "what").getD i 0 + (wEmbed "sel").getD i 0) / 2)
      ∧ (∀ m, retrieve_for_selected_text wEmbed wSearch "what" "sel" m
          = ((wSearch (List.zipWith (fun q s => (q + s) / 2) (wEmbed "what") (wEmbed "sel"))
                m (3/5)).filter
              (fun r => decide (3 < sharedWordCount "sel" (r.payload.chunk_text.getD "")))).take m)
      ∧ (∀ m, (retrieve_for_selected_text wEmbed wSearch "what" "sel" m).length ≤ m)
      ∧ (∀ (complete : String → String → String) (fmtScore : ℚ → String)
          (req : QueryRequest), req.query_mode = "selected-text" →
          req.selected_text = some "sel" → "sel" ≠ "" → req.query_text = "what" →
          processRetrieved ⟨wEmbed, wSearch, complete, fmtScore⟩ req
            = filter_chunks_by_selection (3/10)
                (retrieve_for_selected_text wEmbed wSearch "what" "sel" (req.max_results * 2))
                "sel" req.max_results
          ∧ (processRetrieved ⟨wEmbed, wSearch, complete, fmtScore⟩ req).length
              ≤ req.max_results)) :=
  ⟨by decide, retrieve_selected_text_blend wEmbed wSearch "what" "sel" (by decide)⟩

/-- C7. `process_query` attaches exactly one citation per final
(post-filter) result, in order (`map mkCitation`), and reports
`retrieved_chunks` equal to the length of the final result list; missing
payload fields are defaulted to "unknown", "Unknown Chapter",
"unknown-module", "general" and "". -/
theorem citations_match_final_results (cap : Capabilities) (req : QueryRequest) :
    (process_query cap req).source_citations
        = (processRetrieved cap req).map mkCitation
    ∧ (process_query cap req).retrieved_chunks = (processRetrieved cap req).length
    ∧ (∀ l : List ScoredChunk, (extractSourceCitations l).length = l.length)
    ∧ (∀ q : ℚ, mkCitation ⟨⟨q, {}⟩, none, none⟩
        = ⟨"unknown", "Unknown Chapter", "unknown-module", "general", "", "", q⟩) :=
  ⟨rfl, rfl, fun l => by simp [extractSourceCitations], fun q => rfl⟩

end RAGSpec
